import Mathlib

/-!
Shallow embedding of the logo-resolution and caching subsystem of the
stremio-debridio-emby-resolver repository (src/src/services/logoService.js,
src/src/channels/variations.js) together with the two-phase playlist driver
(src/index.js).  Strings are Lean `String`s; at the character level all
operations go through `String.data : List Char`.  Character classes follow
the ASCII behaviour of the JavaScript operations on the ASCII inputs the
program actually handles.
-/

set_option autoImplicit false

namespace DebridioResolver

/-- Lower-case every character, modelling JavaScript `String.prototype.toLowerCase`
on ASCII data. -/
def lowerStr (s : String) : String :=
  String.mk (s.data.map Char.toLower)

/-- True when `pat` is an initial run of `l`. -/
def isPrefOf : List Char → List Char → Bool
  | [], _ => true
  | _ :: _, [] => false
  | a :: as, b :: bs => a == b && isPrefOf as bs

/-- True when `pat` occurs contiguously inside the second list, modelling
modelling JavaScript `String.prototype.includes`. -/
def containsSubL (pat : List Char) : List Char → Bool
  | [] => isPrefOf pat []
  | l@(_ :: rest) => isPrefOf pat l || containsSubL pat rest

/-- String-level wrapper for `containsSubL`: does `s` contain `pat`? -/
def containsSubStr (s pat : String) : Bool :=
  containsSubL pat.data s.data

/-- True when `suf` is a final run of `l`. -/
def endsWithL (suf l : List Char) : Bool :=
  isPrefOf suf.reverse l.reverse

/-- True when ≥ 4 consecutive decimal digits occur in the character list,
modelling the truthiness of `name.match(/\d{4}/)`. -/
def hasFourDigitRun : List Char → Bool
  | a :: b :: c :: d :: rest =>
    (a.isDigit && b.isDigit && c.isDigit && d.isDigit) || hasFourDigitRun (b :: c :: d :: rest)
  | _ => false

/-- After the first whitespace character of a `\s+logo` occurrence, the rest of the
run must be whitespace immediately followed by `logo`. -/
def wsThenLogo (l : List Char) : Bool :=
  isPrefOf ['l', 'o', 'g', 'o'] (l.dropWhile Char.isWhitespace)

/-- Remove everything from the leftmost occurrence of whitespace-then-`logo` to the
end, modelling `term.replace(/\s+logo.*$/, '')` (terms here are newline-free, so
the `.`-does-not-match-newline nuance of the source regex is moot). -/
def stripLogoSuffixL : List Char → List Char
  | [] => []
  | c :: rest =>
    if c.isWhitespace && wsThenLogo rest then []
    else c :: stripLogoSuffixL rest

/-- Maximal non-whitespace runs, used for `term.split(/\s+/)`; a possible leading
empty string produced by the JavaScript split is dropped, which cannot change any
`some(word => word.length > 2 && …)` test. -/
def wordsOfGo (cur : List Char) : List Char → List (List Char)
  | [] => if cur.isEmpty then [] else [cur.reverse]
  | c :: rest =>
    if c.isWhitespace then
      if cur.isEmpty then wordsOfGo [] rest
      else cur.reverse :: wordsOfGo [] rest
    else wordsOfGo (c :: cur) rest

/-- Split a character list into whitespace-separated words. -/
def wordsOfL (l : List Char) : List (List Char) :=
  wordsOfGo [] l

/-- Collapse every maximal whitespace run to a single space, modelling
`str.replace(/\s+/g, ' ')`; the boolean tracks whether the previous character
was part of a whitespace run. -/
def collapseWsGo (prevWs : Bool) : List Char → List Char
  | [] => []
  | c :: rest =>
    if c.isWhitespace then
      if prevWs then collapseWsGo true rest
      else ' ' :: collapseWsGo true rest
    else c :: collapseWsGo false rest

/-- Remove leading and trailing whitespace, modelling `String.prototype.trim`. -/
def trimWsL (l : List Char) : List Char :=
  (((l.dropWhile Char.isWhitespace).reverse.dropWhile Char.isWhitespace)).reverse

/-- Models `channelName.replace(/\s+/g, ' ').trim()` from `generateSearchTerms`. -/
def normalizeWs (s : String) : String :=
  String.mk (trimWsL (collapseWsGo false s.data))

/-! ## Candidate Filter — `isValidLogoFile` (logoService.js lines 357-390) -/

/-- Models `/\.(svg|png|jpg|jpeg)$/i.test(name)` where `name` is the lower-cased file name. -/
def validFormatOf (fileName : String) : Bool :=
  [".svg", ".png", ".jpg", ".jpeg"].any fun ext =>
    endsWithL ext.data (lowerStr fileName).data

/-- Models `name.includes('logo') || name.includes('wordmark') || name.includes('brand')`. -/
def hasLogoOf (fileName : String) : Bool :=
  containsSubStr (lowerStr fileName) "logo" ||
  containsSubStr (lowerStr fileName) "wordmark" ||
  containsSubStr (lowerStr fileName) "brand"

/-- The `excludeTerms` blocklist of `isValidLogoFile`. -/
def excludeTermsList : List String :=
  ["screenshot", "poster", "banner", "wallpaper", "icon", "favicon",
   "old", "former", "previous", "historic", "vintage", "retro",
   "concept", "draft", "proposal", "mockup", "variant"]

/-- Models `excludeTerms.some(exclude => name.includes(exclude))`. -/
def hasExcludedTermOf (fileName : String) : Bool :=
  excludeTermsList.any fun ex => containsSubStr (lowerStr fileName) ex

/-- The `currentTerms` recency-marker set of `isValidLogoFile`. -/
def currentTermsList : List String :=
  ["2024", "2023", "2022", "2021", "2020", "current", "new"]

/-- Models `currentTerms.some(current => name.includes(current))`. -/
def isCurrentOf (fileName : String) : Bool :=
  currentTermsList.any fun cu => containsSubStr (lowerStr fileName) cu

/-- Models `term.replace(/\s+logo.*$/, '').split(/\s+/).some(word => word.length > 2 &&
name.includes(word.toLowerCase()))`. -/
def matchesSearchOf (fileName searchTerm : String) : Bool :=
  (wordsOfL (stripLogoSuffixL (lowerStr searchTerm).data)).any fun w =>
    decide (2 < w.length) && containsSubL (w.map Char.toLower) (lowerStr fileName).data

/-- Translation of `isValidLogoFile(fileName, searchTerm)` from logoService.js: valid image
extension, a logo-ish word, no blocklisted word, a search-word match, and
(recency marker present or no 4-digit year). -/
def isValidLogoFile (fileName searchTerm : String) : Bool :=
  if !(validFormatOf fileName) then false
  else if !(hasLogoOf fileName) then false
  else if hasExcludedTermOf fileName then false
  else
    matchesSearchOf fileName searchTerm &&
      (isCurrentOf fileName || !(hasFourDigitRun (lowerStr fileName).data))

/-! ## Search-Term Generator (logoService.js lines 257-279, variations.js) -/

/-- Apostrophe character, used inside one variation table entry. -/
def apos : Char := Char.ofNat 39

/-- The static `CHANNEL_VARIATIONS` table of src/src/channels/variations.js,
in source order. -/
def CHANNEL_VARIATIONS : List (String × List String) :=
  [("nbc", ["NBC logo", "National Broadcasting Company logo"]),
   ("cbs", ["CBS logo", "Columbia Broadcasting System logo"]),
   ("abc", ["ABC logo", "American Broadcasting Company logo"]),
   ("fox", ["Fox logo", "Fox Broadcasting Company logo"]),
   ("cnn", ["CNN logo", "Cable News Network logo"]),
   ("espn", ["ESPN logo", "Entertainment Sports Programming Network logo"]),
   ("hbo", ["HBO logo", "Home Box Office logo"]),
   ("mtv", ["MTV logo", "Music Television logo"]),
   ("vh1", ["VH1 logo", "Video Hits One logo"]),
   ("discovery", ["Discovery Channel logo", "Discovery logo"]),
   ("history", ["History Channel logo", "History logo"]),
   ("national geographic",
    ["National Geographic logo", "Nat Geo logo", "National Geographic Channel logo"]),
   ("nat geo",
    ["National Geographic logo", "Nat Geo logo", "National Geographic Channel logo"]),
   ("cartoon network", ["Cartoon Network logo"]),
   ("nickelodeon", ["Nickelodeon logo", "Nick logo"]),
   ("disney", ["Disney Channel logo", "Disney logo"]),
   ("food network", ["Food Network logo"]),
   ("hgtv", ["HGTV logo", "Home Garden Television logo"]),
   ("animal planet", ["Animal Planet logo"]),
   ("comedy central", ["Comedy Central logo"]),
   ("adult swim", ["Adult Swim logo"]),
   ("tnt", ["TNT logo", "Turner Network Television logo"]),
   ("tbs", ["TBS logo", "Turner Broadcasting System logo"]),
   ("usa", ["USA Network logo", "USA logo"]),
   ("syfy", ["Syfy logo", "Sci-Fi Channel logo"]),
   ("amc", ["AMC logo", "American Movie Classics logo"]),
   ("bravo", ["Bravo logo", "Bravo TV logo"]),
   ("lifetime", ["Lifetime logo", "Lifetime Television logo"]),
   ("tlc", ["TLC logo", "The Learning Channel logo"]),
   ("weather channel", ["Weather Channel logo", "The Weather Channel logo"]),
   ("travel channel", ["Travel Channel logo"]),
   ("cooking channel", ["Cooking Channel logo"]),
   ("diy", ["DIY Network logo", "Do It Yourself Network logo"]),
   ("golf channel", ["Golf Channel logo", "The Golf Channel logo"]),
   ("science channel", ["Science Channel logo", "The Science Channel logo"]),
   ("oxygen", ["Oxygen logo", "Oxygen Network logo"]),
   ("we tv", ["WE tv logo", "Women" ++ String.mk [apos] ++ "s Entertainment logo"]),
   ("own", ["OWN logo", "Oprah Winfrey Network logo"]),
   ("bet", ["BET logo", "Black Entertainment Television logo"]),
   ("cmt", ["CMT logo", "Country Music Television logo"]),
   ("fuse", ["Fuse logo", "Fuse TV logo"]),
   ("showtime", ["Showtime logo", "Showtime Networks logo"]),
   ("starz", ["Starz logo", "Starz Entertainment logo"]),
   ("cinemax", ["Cinemax logo", "HBO Cinemax logo"]),
   ("epix", ["Epix logo", "MGM Epix logo"]),
   ("msnbc", ["MSNBC logo", "Microsoft NBC logo"]),
   ("cnbc", ["CNBC logo", "Consumer News Business Channel logo"]),
   ("bloomberg", ["Bloomberg logo", "Bloomberg Television logo"]),
   ("newsmax", ["Newsmax logo", "Newsmax TV logo"]),
   ("oan", ["OAN logo", "One America News logo"]),
   ("pbs", ["PBS logo", "Public Broadcasting Service logo"]),
   ("cw", ["CW logo", "The CW logo"]),
   ("fx", ["FX logo", "FX Networks logo"]),
   ("fxx", ["FXX logo", "FXX Networks logo"])]

/-- Translation of `getChannelVariations(channelName)`: every table entry whose key occurs in the
lower-cased name contributes all of its phrases, in table order. -/
def getChannelVariations (channelName : String) : List String :=
  ((CHANNEL_VARIATIONS.filter fun p => containsSubStr (lowerStr channelName) p.1).map
    (·.2)).flatten

/-- The six base search terms built from the whitespace-normalized channel name. -/
def baseTermsOf (cleanName : String) : List String :=
  [cleanName,
   cleanName ++ " logo",
   cleanName ++ " television logo",
   cleanName ++ " TV logo",
   cleanName ++ " network logo",
   cleanName ++ " channel logo"]

/-- Worker for `dedupFirst`: drop every element already in `seen`, keep the first
occurrence of anything else. -/
def dedupFirstGo (seen : List String) : List String → List String
  | [] => []
  | x :: xs =>
    if seen.any (fun y => y == x) then dedupFirstGo seen xs
    else x :: dedupFirstGo (x :: seen) xs

/-- Remove exact duplicates keeping the first occurrence, modelling
`[...new Set(terms)]`. -/
def dedupFirst (l : List String) : List String :=
  dedupFirstGo [] l

/-- Translation of `generateSearchTerms(channelName)` from logoService.js: base terms, then
table-derived variations, de-duplicated. -/
def generateSearchTerms (channelName : String) : List String :=
  dedupFirst (baseTermsOf (normalizeWs channelName) ++ getChannelVariations (normalizeWs channelName))

/-! ## Cache Store and Logo Resolver state model (logoService.js)

File-system and network effects are made explicit: `CacheState` carries the
in-memory map, the metadata map, the persisted copy of the metadata file
(persistence of the metadata file itself is modelled as reliable), the files in
the cache directory, and effect counters; `Env` supplies the outcome of each
remote HTTP interaction (an `Except` value models a thrown/rejected request)
and the current clock.  Because every fallible remote step in the source is
wrapped in its own try/catch, the translated operations are total functions. -/

/-- One persisted cache metadata record (the object built in `cacheLogo`). -/
structure Entry where
  url : String
  localPath : Option String
  source : String
  timestamp : Nat
deriving DecidableEq, Repr

/-- The mutable state owned by `LogoService` plus the cache directory contents.
`files` maps an existing path to its byte size.  `remoteSearches`,
`networkCalls` and `ttlChecks` count invocations of `searchWikimediaLogo`, of
`httpClient` requests, and of persistent-store TTL validations. -/
structure CacheState where
  logoCache : List (String × String)
  cacheMetadata : List (String × Entry)
  persisted : List (String × Entry)
  files : List (String × Nat)
  remoteSearches : Nat
  networkCalls : Nat
  ttlChecks : Nat
deriving DecidableEq, Repr

/-- The empty initial state of a fresh `LogoService`. -/
def emptyState : CacheState :=
  { logoCache := [], cacheMetadata := [], persisted := [], files := [],
    remoteSearches := 0, networkCalls := 0, ttlChecks := 0 }

/-- Outcomes of the remote interactions, plus the clock.  `httpSearch` yields the
candidate file titles of a Commons search, `fileUrl` the resolved image URL of
`getWikimediaFileUrl` (response-shape parsing abstracted to its result), and
`httpFetch` the byte count a download stream writes to disk. -/
structure Env where
  httpSearch : String → Except String (List String)
  fileUrl : String → Except String (Option String)
  httpFetch : String → Except String Nat
  now : Nat

/-- Map lookup (`Map.prototype.get`) over the association-list model. -/
def lookupMap {α : Type} (m : List (String × α)) (k : String) : Option α :=
  (m.find? fun p => p.1 == k).map (·.2)

/-- Map update (`Map.prototype.set`); the entry is re-inserted at the front,
which is observationally equal for lookups. -/
def setMap {α : Type} (m : List (String × α)) (k : String) (v : α) : List (String × α) :=
  (k, v) :: m.filter fun p => p.1 != k

/-- Map removal (`Map.prototype.delete`). -/
def delMap {α : Type} (m : List (String × α)) (k : String) : List (String × α) :=
  m.filter fun p => p.1 != k

/-- Models `fs.pathExists`. -/
def pathExistsB (files : List (String × Nat)) (p : String) : Bool :=
  files.any fun f => f.1 == p

/-- Models `fs.remove`. -/
def removeFile (files : List (String × Nat)) (p : String) : List (String × Nat) :=
  files.filter fun f => f.1 != p

/-- Writing a file of the given size (`fs.createWriteStream` + pipe). -/
def writeFile (files : List (String × Nat)) (p : String) (size : Nat) : List (String × Nat) :=
  (p, size) :: files.filter fun f => f.1 != p

/-- Models `path.join(this.cacheDir, x)` with the cache directory fixed. -/
def cacheDir : String := "cache/logos"

/-- Joining a file name onto a directory. -/
def pathJoin (dir file : String) : String := dir ++ "/" ++ file

/-- Thirty days in milliseconds — the `maxAge` constant of `getCachedLogo`. -/
def maxAgeMs : Nat := 30 * 24 * 60 * 60 * 1000

/-- Translation of `removeCachedLogo(cacheKey)`: best-effort removal of the backing file,
deletion of the metadata entry, and persistence of the metadata table. -/
def removeCachedLogo (s : CacheState) (cacheKey : String) : CacheState :=
  let files1 :=
    match lookupMap s.cacheMetadata cacheKey with
    | some m =>
      match m.localPath with
      | some lp => removeFile s.files (pathJoin cacheDir lp)
      | none => s.files
    | none => s.files
  let md := delMap s.cacheMetadata cacheKey
  { s with files := files1, cacheMetadata := md, persisted := md }

/-- Translation of `getCachedLogo(cacheKey)`: persistent-store read with TTL validation and
missing-file invalidation. -/
def getCachedLogo (env : Env) (s : CacheState) (cacheKey : String) :
    Option String × CacheState :=
  match lookupMap s.cacheMetadata cacheKey with
  | none => (none, s)
  | some metadata =>
    let s1 := { s with ttlChecks := s.ttlChecks + 1 }
    if env.now - metadata.timestamp > maxAgeMs then
      (none, removeCachedLogo s1 cacheKey)
    else
      match metadata.localPath with
      | some lp =>
        if pathExistsB s1.files (pathJoin cacheDir lp) then
          (some (pathJoin cacheDir lp), s1)
        else
          (none, removeCachedLogo s1 cacheKey)
      | none => (some metadata.url, s1)

/-- The characters following the first `://` of a URL, `none` when absent. -/
def afterSchemeSep : List Char → Option (List Char)
  | [] => none
  | c :: rest =>
    if isPrefOf [':', '/', '/'] (c :: rest) then some (rest.drop 2)
    else afterSchemeSep rest

/-- The path component of a URL: everything from the first `/` after the
`://`-separated authority up to a query or fragment; `none` models the `new URL`
constructor throwing on a separator-free string. -/
def urlPathname (url : String) : Option String :=
  match afterSchemeSep url.data with
  | none => none
  | some rest =>
    some (String.mk ((rest.dropWhile fun c => c != '/').takeWhile
      fun c => c != '?' && c != '#'))

/-- Models `path.extname`: the suffix of the last path segment from its last dot, empty
when there is no dot or only a leading dot. -/
def pathExtname (p : String) : String :=
  let b := ((p.data.reverse.takeWhile fun c => c != '/')).reverse
  let revb := b.reverse
  if revb.any fun c => c == '.' then
    let afterDot := revb.takeWhile fun c => c != '.'
    if afterDot.length + 1 < b.length then String.mk ('.' :: afterDot.reverse) else ""
  else ""

/-- Models `cacheKey.replace(/[^a-z0-9]/gi, '_').toLowerCase()`. -/
def sanitizeKey (k : String) : String :=
  String.mk ((k.data.map fun c => if c.isAlpha || c.isDigit then c else '_').map Char.toLower)

/-- The result object of a successful `downloadLogoFile`. -/
structure DlResult where
  filename : String
  fullPath : String
  size : Nat
deriving DecidableEq, Repr

/-- The safe local filename of a download: sanitized key plus the extension
inferred from the URL path, defaulting to `.png`. -/
def downloadFilename (urlPath cacheKey : String) : String :=
  sanitizeKey cacheKey ++ (if pathExtname urlPath == "" then ".png" else pathExtname urlPath)

/-- Translation of `downloadLogoFile(url, cacheKey)`: derive a safe local filename, stream the
resource to disk, and reject (remove the file, return `null`) when the written
file is empty.  A rejected request is modelled as producing no file. -/
def downloadLogoFile (env : Env) (s : CacheState) (url cacheKey : String) :
    Option DlResult × CacheState :=
  match urlPathname url with
  | none => (none, s)
  | some urlPath =>
    let filename := downloadFilename urlPath cacheKey
    let fullPath := pathJoin cacheDir filename
    let s1 := { s with networkCalls := s.networkCalls + 1 }
    match env.httpFetch url with
    | .error _ => (none, s1)
    | .ok size =>
      let s2 := { s1 with files := writeFile s1.files fullPath size }
      if size == 0 then (none, { s2 with files := removeFile s2.files fullPath })
      else (some { filename := filename, fullPath := fullPath, size := size }, s2)

/-- Translation of `cacheLogo(cacheKey, logoUrl, source)`: download remote-origin sources,
write the metadata entry, persist the table, and return the resolved
reference. -/
def cacheLogo (env : Env) (s : CacheState) (cacheKey logoUrl source : String) :
    Option String × CacheState :=
  let dl :=
    if source == "wikimedia" || source == "debridio" then
      downloadLogoFile env s logoUrl cacheKey
    else (none, s)
  let localPath := dl.1.map (·.filename)
  let finalUrl := match dl.1 with
    | some d => d.fullPath
    | none => logoUrl
  let metadata : Entry :=
    { url := logoUrl, localPath := localPath, source := source, timestamp := env.now }
  let md := setMap dl.2.cacheMetadata cacheKey metadata
  (some finalUrl, { dl.2 with cacheMetadata := md, persisted := md })

/-- Upper-case hexadecimal digit. -/
def hexDigit (n : Nat) : Char :=
  if n < 10 then Char.ofNat (48 + n) else Char.ofNat (55 + n)

/-- Models `encodeURIComponent` on ASCII data: unreserved characters kept, everything
else percent-encoded. -/
def encodeURIComponent (s : String) : String :=
  String.mk ((s.data.map fun c =>
    if c.isAlpha || c.isDigit || c == '-' || c == '_' || c == '.' || c == '!' ||
        c == '~' || c == '*' || c == apos || c == '(' || c == ')' then [c]
    else ['%', hexDigit (c.toNat / 16 % 16), hexDigit (c.toNat % 16)]).flatten)

/-- Models `generatePlaceholderLogo(channelName)`. -/
def generatePlaceholderLogo (channelName : String) : String :=
  "https://via.placeholder.com/200x200/1e3a8a/ffffff?text=" ++ encodeURIComponent channelName

/-- Translation of `getWikimediaFileUrl(fileName)`: one metadata request; any failure yields
`null`. -/
def getWikimediaFileUrl (env : Env) (s : CacheState) (fileName : String) :
    Option String × CacheState :=
  let s1 := { s with networkCalls := s.networkCalls + 1 }
  match env.fileUrl fileName with
  | .error _ => (none, s1)
  | .ok r => (r, s1)

/-- The result-scanning loop of `queryWikimediaForTerm`: first candidate that
passes `isValidLogoFile` and resolves to a URL wins. -/
def scanResults (env : Env) (s : CacheState) (searchTerm : String) :
    List String → Option String × CacheState
  | [] => (none, s)
  | title :: rest =>
    if isValidLogoFile title searchTerm then
      let fu := getWikimediaFileUrl env s title
      match fu.1 with
      | some u => (some u, fu.2)
      | none => scanResults env fu.2 searchTerm rest
    else scanResults env s searchTerm rest

/-- Translation of `queryWikimediaForTerm(searchTerm)`: one search request, then the candidate
scan; any thrown request is caught and yields `null`. -/
def queryWikimediaForTerm (env : Env) (s : CacheState) (searchTerm : String) :
    Option String × CacheState :=
  let s1 := { s with networkCalls := s.networkCalls + 1 }
  match env.httpSearch searchTerm with
  | .error _ => (none, s1)
  | .ok results =>
    if results.isEmpty then (none, s1)
    else scanResults env s1 searchTerm results

/-- The term loop of `searchWikimediaLogo`. -/
def searchLoop (env : Env) (s : CacheState) : List String → Option String × CacheState
  | [] => (none, s)
  | term :: rest =>
    let q := queryWikimediaForTerm env s term
    match q.1 with
    | some logo => (some logo, q.2)
    | none => searchLoop env q.2 rest

/-- Translation of `searchWikimediaLogo(channelName)`: try every generated term in order;
failures are absorbed and yield `null`. -/
def searchWikimediaLogo (env : Env) (s : CacheState) (channelName : String) :
    Option String × CacheState :=
  let s1 := { s with remoteSearches := s.remoteSearches + 1 }
  searchLoop env s1 (generateSearchTerms channelName)

/-- JavaScript truthiness of the optional `debridioLogo` argument. -/
def jsTruthy : Option String → Bool
  | some d => !d.isEmpty
  | none => false

/-- Translation of `getChannelLogo(channelName, debridioLogo)`: memory cache, then persistent
cache, then the wikimedia → debridio → placeholder priority chain, caching and
memoizing whatever wins.  Every inner step catches its own failures, so the
translated resolver is a total function. -/
def getChannelLogo (env : Env) (s : CacheState) (channelName : String)
    (debridioLogo : Option String) : String × CacheState :=
  let cacheKey := lowerStr channelName
  match lookupMap s.logoCache cacheKey with
  | some v => (v, s)
  | none =>
    let gc := getCachedLogo env s cacheKey
    match gc.1 with
    | some cachedLogo =>
      (cachedLogo, { gc.2 with logoCache := setMap gc.2.logoCache cacheKey cachedLogo })
    | none =>
      let ws := searchWikimediaLogo env gc.2 channelName
      let pick : String × String :=
        match ws.1 with
        | some w => (w, "wikimedia")
        | none =>
          match debridioLogo with
          | some d =>
            if d.isEmpty then (generatePlaceholderLogo channelName, "placeholder")
            else (d, "debridio")
          | none => (generatePlaceholderLogo channelName, "placeholder")
      let cl := cacheLogo env ws.2 cacheKey pick.1 pick.2
      let result := cl.1.getD pick.1
      (result, { cl.2 with logoCache := setMap cl.2.logoCache cacheKey result })

/-! ## Two-Phase Playlist Driver (index.js lines 466-579) -/

/-- One playlist item as consumed by the driver (`title` and `poster` are the
only fields the core reads or writes). -/
structure Item where
  title : String
  poster : Option String
deriving DecidableEq, Repr

/-- The `config.logos` flags consumed by the driver; `enableWikimedia = false`
also covers an absent `config.logos` object. -/
structure Config where
  enableWikimedia : Bool
deriving DecidableEq, Repr

/-- Outcomes of the driver's external collaborators: content fetch and the
playlist write (`Except` models a rejected promise). -/
structure DriverEnv where
  fetchContent : Except String (List Item)
  writePlaylist : List Item → Except String Unit

/-- What an `enhanceLogosInBackground` invocation does: whether the background
task was scheduled, the content list and cache state afterwards, how many
resolver calls it made, and whether the playlist was rewritten. -/
structure EnhanceOutcome where
  scheduled : Bool
  content : List Item
  state : CacheState
  resolverCalls : Nat
  logosEnhanced : Nat
  rewritten : Bool
deriving DecidableEq, Repr

/-- The per-item enhancement pass of the background task: resolve each item’s
logo (current poster passed as fallback), update the poster when the resolved
reference differs, and count resolver calls and changed items.  The source
processes items in batches of 3 with `Promise.all` and a pause between batches;
batch concurrency and pacing affect only timing and are modelled as the same
left-to-right pass over the list. -/
def enhanceItems (env : Env) (s : CacheState) :
    List Item → List Item × CacheState × Nat × Nat
  | [] => ([], s, 0, 0)
  | item :: rest =>
    let r := getChannelLogo env s item.title item.poster
    let changed := some r.1 != item.poster
    let item' := if changed then { item with poster := some r.1 } else item
    let tailRes := enhanceItems env r.2 rest
    (item' :: tailRes.1, tailRes.2.1, tailRes.2.2.1 + 1,
      tailRes.2.2.2 + (if changed then 1 else 0))

/-- Translation of `enhanceLogosInBackground(content)` from index.js: when
`config.logos?.enableWikimedia` is falsy the function returns without
scheduling anything; otherwise the deferred task enhances every item and
rewrites the playlist exactly when at least one logo changed. -/
def enhanceLogosInBackground (cfg : Config) (env : Env) (s : CacheState)
    (content : List Item) : EnhanceOutcome :=
  if !cfg.enableWikimedia then
    { scheduled := false, content := content, state := s, resolverCalls := 0,
      logosEnhanced := 0, rewritten := false }
  else
    let r := enhanceItems env s content
    { scheduled := true, content := r.1, state := r.2.1, resolverCalls := r.2.2.1,
      logosEnhanced := r.2.2.2, rewritten := decide (0 < r.2.2.2) }

/-- The observable outcome of one `generatePlaylist()` invocation: the
mutual-exclusion flag afterwards, whether the call was the skipped no-op,
the re-raised error if any, and the background-enhancement invocation
(`none` when `enhanceLogosInBackground` was never called). -/
structure GenResult where
  isUpdating : Bool
  skipped : Bool
  errorRaised : Option String
  enhance : Option EnhanceOutcome
deriving DecidableEq, Repr

/-- Translation of `generatePlaylist()` from index.js: no-op when the flag is set; otherwise
fetch, write, clear the flag, and only then hand the content to
`enhanceLogosInBackground`; a fetch or write error clears the flag and
re-raises without invoking the background enhancement. -/
def generatePlaylist (cfg : Config) (denv : DriverEnv) (env : Env) (s : CacheState)
    (isUpdating : Bool) : GenResult :=
  if isUpdating then
    { isUpdating := true, skipped := true, errorRaised := none, enhance := none }
  else
    match denv.fetchContent with
    | .error e =>
      { isUpdating := false, skipped := false, errorRaised := some e, enhance := none }
    | .ok content =>
      match denv.writePlaylist content with
      | .error e =>
        { isUpdating := false, skipped := false, errorRaised := some e, enhance := none }
      | .ok _ =>
        { isUpdating := false, skipped := false, errorRaised := none,
          enhance := some (enhanceLogosInBackground cfg env s content) }

/-! ## Concrete environments and states used by witnesses and counterexamples -/

/-- A network where every request is rejected. -/
def envDown : Env :=
  { httpSearch := fun _ => .error "network down",
    fileUrl := fun _ => .error "network down",
    httpFetch := fun _ => .error "network down",
    now := 0 }

/-- A network where every search succeeds with an empty result list and every
download is rejected. -/
def envEmptySearch : Env :=
  { httpSearch := fun _ => .ok [],
    fileUrl := fun _ => .error "network down",
    httpFetch := fun _ => .error "network down",
    now := 0 }

/-- A network where every search succeeds with an empty result list and every
download succeeds writing zero bytes. -/
def envZeroByte : Env :=
  { httpSearch := fun _ => .ok [],
    fileUrl := fun _ => .ok (some "https://upload.test/img.png"),
    httpFetch := fun _ => .ok 0,
    now := 0 }

/-- The metadata entry written when the caller-supplied fallback wins the chain
in the `envEmptySearch` scenario. -/
def debridioEntry : Entry :=
  { url := "http://cdn.test/espn.png", localPath := none,
    source := "debridio", timestamp := 0 }

/-- A URL-only metadata entry created at time 0. -/
def staleEntry : Entry :=
  { url := "https://upload.test/espn.png", localPath := none,
    source := "wikimedia", timestamp := 0 }

/-- A state holding a single metadata entry for key `espn`, thirty days and one
millisecond older than `now = maxAgeMs + 1`. -/
def staleState : CacheState :=
  { emptyState with
    cacheMetadata := [("espn", staleEntry)],
    persisted := [("espn", staleEntry)] }

/-- Copy of `envDown` with the clock set just past the 30-day TTL. -/
def envExpired : Env :=
  { envDown with now := maxAgeMs + 1 }

/-! ## Theorems -/

/-- C3: the Candidate Filter accepts only if the word-match test passed and
(a recency marker from the fixed set is present or the file name contains no
4-digit year); moreover `isValidLogoFile "NBC_logo_2010.png" "NBC logo"` is
`false` and `isValidLogoFile "NBC_logo.svg" "NBC logo"` is `true`. -/
theorem c3_candidate_filter :
    (∀ fileName searchTerm : String, isValidLogoFile fileName searchTerm = true →
      matchesSearchOf fileName searchTerm = true ∧
        (isCurrentOf fileName = true ∨ hasFourDigitRun (lowerStr fileName).data = false))
    ∧ isValidLogoFile "NBC_logo_2010.png" "NBC logo" = false
    ∧ isValidLogoFile "NBC_logo.svg" "NBC logo" = true := by
  refine ⟨?_, by decide, by decide⟩
  intro f t h
  by_cases h1 : validFormatOf f = true
  · by_cases h2 : hasLogoOf f = true
    · by_cases h3 : hasExcludedTermOf f = true
      · simp [isValidLogoFile, h1, h2, h3] at h
      · simp only [Bool.not_eq_true] at h3
        simp [isValidLogoFile, h1, h2, h3] at h
        exact h
    · simp only [Bool.not_eq_true] at h2
      simp [isValidLogoFile, h1, h2] at h
  · simp only [Bool.not_eq_true] at h1
    simp [isValidLogoFile, h1] at h

/-- Witness for C3 at the accepted concrete file of the claim. -/
theorem c3_candidate_filter_witness :
    matchesSearchOf "NBC_logo.svg" "NBC logo" = true ∧
      (isCurrentOf "NBC_logo.svg" = true ∨
        hasFourDigitRun (lowerStr "NBC_logo.svg").data = false) :=
  c3_candidate_filter.1 "NBC_logo.svg" "NBC logo" (by decide)

/-- C10: any candidate passing the format, logo-word, blocklist and word-match
rules that contains the substring `new` (also inside a longer word such as
`news`) is accepted, even together with an old 4-digit year, because the
recency-marker test is substring containment; in particular
`isValidLogoFile "NBC_News_logo_2010.png" "NBC logo"` is `true`. -/
theorem c10_recency_marker_substring :
    (∀ fileName searchTerm : String,
        validFormatOf fileName = true → hasLogoOf fileName = true →
        hasExcludedTermOf fileName = false →
        matchesSearchOf fileName searchTerm = true →
        containsSubStr (lowerStr fileName) "new" = true →
        isValidLogoFile fileName searchTerm = true)
    ∧ isValidLogoFile "NBC_News_logo_2010.png" "NBC logo" = true := by
  refine ⟨?_, by decide⟩
  intro f t h1 h2 h3 h4 h5
  have hc : isCurrentOf f = true := by
    apply List.any_eq_true.mpr
    exact ⟨"new", by simp [currentTermsList], h5⟩
  simp [isValidLogoFile, h1, h2, h3, h4, hc]

/-- Witness for C10 at a dated file whose only recency evidence is the
substring `new` inside `new`-bearing words. -/
theorem c10_recency_marker_substring_witness :
    isValidLogoFile "ABC_News_wordmark_1999.png" "ABC logo" = true :=
  c10_recency_marker_substring.1 "ABC_News_wordmark_1999.png" "ABC logo"
    (by decide) (by decide) (by decide) (by decide) (by decide)

theorem mem_dedupFirstGo (a : String) :
    ∀ (l seen : List String),
      a ∈ dedupFirstGo seen l ↔ a ∈ l ∧ seen.any (fun y => y == a) = false := by
  intro l
  induction l with
  | nil => intro seen; simp [dedupFirstGo]
  | cons x xs ih =>
    intro seen
    by_cases h : seen.any (fun y => y == x) = true
    · rw [dedupFirstGo, if_pos h, ih]
      constructor
      · exact fun ⟨h1, h2⟩ => ⟨List.mem_cons_of_mem x h1, h2⟩
      · rintro ⟨h1, h2⟩
        rcases List.mem_cons.mp h1 with rfl | h1
        · exact absurd h (by simp [h2])
        · exact ⟨h1, h2⟩
    · simp only [Bool.not_eq_true] at h
      rw [dedupFirstGo, if_neg (by simp [h])]
      constructor
      · intro hmem
        rcases List.mem_cons.mp hmem with rfl | hmem
        · exact ⟨List.mem_cons_self a xs, h⟩
        · have := (ih (x :: seen)).mp hmem
          rcases this with ⟨h1, h2⟩
          rw [List.any_cons] at h2
          rcases Bool.or_eq_false_iff.mp h2 with ⟨_, h4⟩
          exact ⟨List.mem_cons_of_mem x h1, h4⟩
      · rintro ⟨h1, h2⟩
        by_cases hax : a = x
        · exact hax ▸ List.mem_cons_self a _
        · rcases List.mem_cons.mp h1 with rfl | h1
          · exact absurd rfl hax
          · apply List.mem_cons_of_mem
            apply (ih (x :: seen)).mpr
            refine ⟨h1, ?_⟩
            rw [List.any_cons, Bool.or_eq_false_iff]
            exact ⟨by simp [Ne.symm hax], h2⟩

theorem nodup_dedupFirstGo : ∀ (l seen : List String), (dedupFirstGo seen l).Nodup := by
  intro l
  induction l with
  | nil => intro seen; simp [dedupFirstGo]
  | cons x xs ih =>
    intro seen
    by_cases h : seen.any (fun y => y == x) = true
    · rw [dedupFirstGo, if_pos h]; exact ih seen
    · rw [dedupFirstGo, if_neg h]
      refine List.nodup_cons.mpr ⟨?_, ih (x :: seen)⟩
      intro hmem
      have := (mem_dedupFirstGo x xs (x :: seen)).mp hmem
      rcases this with ⟨_, h2⟩
      rw [List.any_cons] at h2
      simp at h2

theorem dedupFirstGo_append_of_nodup :
    ∀ (xs : List String), xs.Nodup →
      ∀ (ys seen : List String), (∀ a ∈ xs, seen.any (fun y => y == a) = false) →
      ∃ zs, dedupFirstGo seen (xs ++ ys) = xs ++ zs ∧ ∀ a ∈ zs, a ∈ ys := by
  intro xs
  induction xs with
  | nil =>
    intro _ ys seen _
    refine ⟨dedupFirstGo seen ys, by simp, ?_⟩
    intro a ha
    exact ((mem_dedupFirstGo a ys seen).mp ha).1
  | cons x xs' ih =>
    intro hnd ys seen hseen
    have hx : seen.any (fun y => y == x) = false := hseen x (List.mem_cons_self x xs')
    rw [List.cons_append, dedupFirstGo, if_neg (by simp [hx])]
    have hnd' := List.nodup_cons.mp hnd
    have hseen' : ∀ a ∈ xs', (x :: seen).any (fun y => y == a) = false := by
      intro a ha
      rw [List.any_cons, Bool.or_eq_false_iff]
      have hax : x ≠ a := fun he => hnd'.1 (he ▸ ha)
      exact ⟨by simp [hax], hseen a (List.mem_cons_of_mem x ha)⟩
    rcases ih hnd'.2 ys (x :: seen) hseen' with ⟨zs, heq, hzs⟩
    exact ⟨zs, by rw [heq, List.cons_append], hzs⟩

theorem ne_of_length_ne {s t : String} (h : s.length ≠ t.length) : s ≠ t :=
  fun he => h (he ▸ rfl)

theorem append_left_ne {c s t : String} (h : s ≠ t) : c ++ s ≠ c ++ t := by
  intro he
  apply h
  have hd := congrArg String.data he
  rw [String.data_append, String.data_append] at hd
  have hst := List.append_cancel_left hd
  cases s; cases t; simp_all

theorem self_ne_append {c t : String} (h : t.length ≠ 0) : c ≠ c ++ t := by
  intro he
  apply h
  have hl := congrArg String.length he
  rw [String.length_append] at hl
  omega

theorem baseTermsOf_nodup (c : String) : (baseTermsOf c).Nodup := by
  simp only [baseTermsOf, List.nodup_cons, List.mem_cons, List.mem_singleton,
    List.not_mem_nil, not_false_iff, List.nodup_nil, and_true, not_or]
  refine ⟨⟨?_, ?_, ?_, ?_, ?_⟩, ⟨?_, ?_, ?_, ?_⟩, ⟨?_, ?_, ?_⟩, ⟨?_, ?_⟩, ?_⟩
  · exact self_ne_append (by decide)
  · exact self_ne_append (by decide)
  · exact self_ne_append (by decide)
  · exact self_ne_append (by decide)
  · exact self_ne_append (by decide)
  · exact append_left_ne (by decide)
  · exact append_left_ne (by decide)
  · exact append_left_ne (by decide)
  · exact append_left_ne (by decide)
  · exact append_left_ne (by decide)
  · exact append_left_ne (by decide)
  · exact append_left_ne (by decide)
  · exact append_left_ne (by decide)
  · exact append_left_ne (by decide)
  · exact append_left_ne (by decide)

/-- C6: the Search-Term Generator returns the six base terms first, then only
table-derived variations, duplicates removed keeping the first occurrence; it is
a pure total function, so it always returns at least the base terms.  The
concrete `"ESPN"` instance pins the full order. -/
theorem c6_search_term_order :
    (∀ name : String, ∃ zs,
        generateSearchTerms name = baseTermsOf (normalizeWs name) ++ zs ∧
          ∀ a ∈ zs, a ∈ getChannelVariations (normalizeWs name))
    ∧ (∀ name : String, (generateSearchTerms name).Nodup)
    ∧ generateSearchTerms "ESPN" =
        ["ESPN", "ESPN logo", "ESPN television logo", "ESPN TV logo",
         "ESPN network logo", "ESPN channel logo",
         "Entertainment Sports Programming Network logo"] := by
  refine ⟨?_, ?_, by decide⟩
  · intro name
    exact dedupFirstGo_append_of_nodup (baseTermsOf (normalizeWs name))
      (baseTermsOf_nodup _) (getChannelVariations (normalizeWs name)) []
      (fun a _ => rfl)
  · intro name
    exact nodup_dedupFirstGo _ []

/-- Witness for C6: duplicate-freeness at the concrete channel of the claim. -/
theorem c6_search_term_order_witness : (generateSearchTerms "ESPN").Nodup :=
  c6_search_term_order.2.1 "ESPN"

theorem lookupMap_setMap_self {α : Type} (m : List (String × α)) (k : String) (v : α) :
    lookupMap (setMap m k v) k = some v := by
  unfold lookupMap setMap
  rw [List.find?_cons_of_pos _ (by simp)]
  rfl

theorem lookupMap_delMap_self {α : Type} (m : List (String × α)) (k : String) :
    lookupMap (delMap m k) k = none := by
  unfold lookupMap delMap
  rw [List.find?_eq_none.mpr]
  · rfl
  · intro x hx
    have := (List.mem_filter.mp hx).2
    simp_all

theorem lookupMap_mem {α : Type} {m : List (String × α)} {k : String} {e : α}
    (h : lookupMap m k = some e) : (k, e) ∈ m := by
  unfold lookupMap at h
  cases hf : m.find? (fun p => p.1 == k) with
  | none => rw [hf] at h; cases h
  | some p =>
    rw [hf] at h
    have hk : p.1 = k := by simpa using List.find?_some hf
    have hm := List.mem_of_find?_eq_some hf
    have he : p.2 = e := by simpa using h
    rw [← hk, ← he]
    exact hm

theorem pathExists_removeFile (fs : List (String × Nat)) (p : String) :
    pathExistsB (removeFile fs p) p = false := by
  rw [removeFile, pathExistsB, ← Bool.not_eq_true, List.any_eq_true]
  rintro ⟨x, hx, hp⟩
  have := (List.mem_filter.mp hx).2
  simp_all

/-- C4: a persistent entry that is expired (older than 30 days) or whose backing
file is gone makes `get` return absent and evicts the entry: the metadata entry
is deleted, the metadata table is persisted, and the backing file (if any) is
removed — identically for both conditions. -/
theorem c4_ttl_and_missing_file_eviction :
    ∀ (env : Env) (s : CacheState) (key : String) (e : Entry),
      lookupMap s.cacheMetadata key = some e →
      (env.now - e.timestamp > maxAgeMs ∨
        ∃ lp, e.localPath = some lp ∧
          pathExistsB s.files (pathJoin cacheDir lp) = false) →
      (getCachedLogo env s key).1 = none ∧
      lookupMap ((getCachedLogo env s key).2).cacheMetadata key = none ∧
      ((getCachedLogo env s key).2).persisted = ((getCachedLogo env s key).2).cacheMetadata ∧
      ∀ lp, e.localPath = some lp →
        pathExistsB ((getCachedLogo env s key).2).files (pathJoin cacheDir lp) = false := by
  intro env s key e h hbad
  have hmain : getCachedLogo env s key =
      (none, removeCachedLogo { s with ttlChecks := s.ttlChecks + 1 } key) := by
    by_cases hexp : env.now - e.timestamp > maxAgeMs
    · simp [getCachedLogo, h, hexp]
    · rcases hbad with hexp' | ⟨lp, hlp, hex⟩
      · exact absurd hexp' hexp
      · simp [getCachedLogo, h, hexp, hlp, hex]
  rw [hmain]
  refine ⟨rfl, lookupMap_delMap_self _ _, rfl, ?_⟩
  intro lp hlp
  simp only [removeCachedLogo, h, hlp]
  exact pathExists_removeFile _ _

/-- Witness for C4 at the concrete expired entry. -/
theorem c4_ttl_and_missing_file_eviction_witness :
    (getCachedLogo envExpired staleState "espn").1 = none ∧
    lookupMap ((getCachedLogo envExpired staleState "espn").2).cacheMetadata "espn" = none ∧
    ((getCachedLogo envExpired staleState "espn").2).persisted =
      ((getCachedLogo envExpired staleState "espn").2).cacheMetadata ∧
    ∀ lp, staleEntry.localPath = some lp →
      pathExistsB ((getCachedLogo envExpired staleState "espn").2).files
        (pathJoin cacheDir lp) = false :=
  c4_ttl_and_missing_file_eviction envExpired staleState "espn" staleEntry
    (by decide) (Or.inl (by decide))

/-- C8: a download whose stream completes having written a zero-byte file is
reported as a failure (`null` result) and the empty file is removed, so a
reference to an empty file is never returned. -/
theorem c8_zero_byte_download_rejected :
    ∀ (env : Env) (s : CacheState) (url cacheKey urlPath : String),
      urlPathname url = some urlPath →
      env.httpFetch url = .ok 0 →
      (downloadLogoFile env s url cacheKey).1 = none ∧
      pathExistsB ((downloadLogoFile env s url cacheKey).2).files
        (pathJoin cacheDir (downloadFilename urlPath cacheKey)) = false := by
  intro env s url cacheKey urlPath hpath hfetch
  simp only [downloadLogoFile, hpath, hfetch]
  exact ⟨rfl, pathExists_removeFile _ _⟩

/-- Witness for C8 at the concrete zero-byte environment. -/
theorem c8_zero_byte_download_rejected_witness :
    (downloadLogoFile envZeroByte emptyState "https://upload.test/img.png" "espn").1 = none ∧
    pathExistsB ((downloadLogoFile envZeroByte emptyState
        "https://upload.test/img.png" "espn").2).files
      (pathJoin cacheDir (downloadFilename "/img.png" "espn")) = false :=
  c8_zero_byte_download_rejected envZeroByte emptyState
    "https://upload.test/img.png" "espn" "/img.png" (by decide) rfl

theorem getWikimediaFileUrl_state (env : Env) (s : CacheState) (t : String) :
    ∃ n, (getWikimediaFileUrl env s t).2 = { s with networkCalls := n } := by
  cases h : env.fileUrl t with
  | error e => exact ⟨s.networkCalls + 1, by simp [getWikimediaFileUrl, h]⟩
  | ok r => exact ⟨s.networkCalls + 1, by simp [getWikimediaFileUrl, h]⟩

theorem scanResults_state (env : Env) (t : String) :
    ∀ (l : List String) (s : CacheState),
      ∃ n, (scanResults env s t l).2 = { s with networkCalls := n } := by
  intro l
  induction l with
  | nil => intro s; exact ⟨s.networkCalls, rfl⟩
  | cons title rest ih =>
    intro s
    by_cases hv : isValidLogoFile title t = true
    · obtain ⟨n1, h1⟩ := getWikimediaFileUrl_state env s title
      cases hu : (getWikimediaFileUrl env s title).1 with
      | some u =>
        exact ⟨n1, by simp [scanResults, hv, hu, h1]⟩
      | none =>
        obtain ⟨n2, h2⟩ := ih { s with networkCalls := n1 }
        refine ⟨n2, ?_⟩
        simp only [scanResults, hv, if_pos, hu]
        rw [h1]
        exact h2
    · obtain ⟨n, hn⟩ := ih s
      exact ⟨n, by simp [scanResults, hv, hn]⟩

theorem queryWikimediaForTerm_state (env : Env) (s : CacheState) (t : String) :
    ∃ n, (queryWikimediaForTerm env s t).2 = { s with networkCalls := n } := by
  cases h : env.httpSearch t with
  | error e => exact ⟨s.networkCalls + 1, by simp [queryWikimediaForTerm, h]⟩
  | ok results =>
    by_cases hres : results.isEmpty = true
    · exact ⟨s.networkCalls + 1, by simp [queryWikimediaForTerm, h, hres]⟩
    · obtain ⟨n, hn⟩ := scanResults_state env t results { s with networkCalls := s.networkCalls + 1 }
      exact ⟨n, by simp [queryWikimediaForTerm, h, hres, hn]⟩

theorem searchLoop_state (env : Env) :
    ∀ (terms : List String) (s : CacheState),
      ∃ n, (searchLoop env s terms).2 = { s with networkCalls := n } := by
  intro terms
  induction terms with
  | nil => intro s; exact ⟨s.networkCalls, rfl⟩
  | cons term rest ih =>
    intro s
    obtain ⟨n1, h1⟩ := queryWikimediaForTerm_state env s term
    cases hq : (queryWikimediaForTerm env s term).1 with
    | some logo => exact ⟨n1, by simp [searchLoop, hq, h1]⟩
    | none =>
      obtain ⟨n2, h2⟩ := ih { s with networkCalls := n1 }
      refine ⟨n2, ?_⟩
      simp only [searchLoop, hq]
      rw [h1]
      exact h2

theorem searchWikimediaLogo_state (env : Env) (s : CacheState) (c : String) :
    ∃ n, (searchWikimediaLogo env s c).2 =
      { s with remoteSearches := s.remoteSearches + 1, networkCalls := n } := by
  obtain ⟨n, hn⟩ :=
    searchLoop_state env (generateSearchTerms c) { s with remoteSearches := s.remoteSearches + 1 }
  exact ⟨n, by simp [searchWikimediaLogo, hn]⟩

theorem downloadLogoFile_state (env : Env) (s : CacheState) (url k : String) :
    ∃ n fs, (downloadLogoFile env s url k).2 = { s with networkCalls := n, files := fs } := by
  cases hp : urlPathname url with
  | none => exact ⟨s.networkCalls, s.files, by simp [downloadLogoFile, hp]⟩
  | some urlPath =>
    cases hf : env.httpFetch url with
    | error e =>
      exact ⟨s.networkCalls + 1, s.files, by simp [downloadLogoFile, hp, hf]⟩
    | ok size =>
      by_cases hz : (size == 0) = true
      · exact ⟨s.networkCalls + 1,
          removeFile (writeFile s.files (pathJoin cacheDir (downloadFilename urlPath k)) size)
            (pathJoin cacheDir (downloadFilename urlPath k)),
          by simp [downloadLogoFile, hp, hf, hz]⟩
      · exact ⟨s.networkCalls + 1,
          writeFile s.files (pathJoin cacheDir (downloadFilename urlPath k)) size,
          by simp [downloadLogoFile, hp, hf, hz]⟩

theorem cacheLogo_state (env : Env) (s : CacheState) (k u src : String) :
    ∃ n fs lp, (cacheLogo env s k u src).2 =
      { s with
        networkCalls := n,
        files := fs,
        cacheMetadata := setMap s.cacheMetadata k
          { url := u, localPath := lp, source := src, timestamp := env.now },
        persisted := setMap s.cacheMetadata k
          { url := u, localPath := lp, source := src, timestamp := env.now } } := by
  by_cases hs : (src == "wikimedia" || src == "debridio") = true
  · obtain ⟨n, fs, hdl⟩ := downloadLogoFile_state env s u k
    refine ⟨n, fs, ((downloadLogoFile env s u k).1).map (·.filename), ?_⟩
    simp only [cacheLogo, hs, if_pos, hdl]
  · refine ⟨s.networkCalls, s.files, none, ?_⟩
    simp [cacheLogo, hs]

theorem getCachedLogo_state (env : Env) (s : CacheState) (k : String) :
    ∃ md pd fs tc,
      (getCachedLogo env s k).2 =
        { s with cacheMetadata := md, persisted := pd, files := fs, ttlChecks := tc } ∧
      ∀ x ∈ md, x ∈ s.cacheMetadata := by
  cases h : lookupMap s.cacheMetadata k with
  | none =>
    exact ⟨s.cacheMetadata, s.persisted, s.files, s.ttlChecks,
      by simp [getCachedLogo, h], fun x hx => hx⟩
  | some metadata =>
    by_cases hexp : env.now - metadata.timestamp > maxAgeMs
    · cases hlp : metadata.localPath with
      | some lp =>
        exact ⟨delMap s.cacheMetadata k, delMap s.cacheMetadata k,
          removeFile s.files (pathJoin cacheDir lp), s.ttlChecks + 1,
          by simp [getCachedLogo, h, hexp, removeCachedLogo, hlp],
          fun x hx => List.mem_of_mem_filter hx⟩
      | none =>
        exact ⟨delMap s.cacheMetadata k, delMap s.cacheMetadata k,
          s.files, s.ttlChecks + 1,
          by simp [getCachedLogo, h, hexp, removeCachedLogo, hlp],
          fun x hx => List.mem_of_mem_filter hx⟩
    · cases hlp : metadata.localPath with
      | some lp =>
        by_cases hex : pathExistsB s.files (pathJoin cacheDir lp) = true
        · exact ⟨s.cacheMetadata, s.persisted, s.files, s.ttlChecks + 1,
            by simp [getCachedLogo, h, hexp, hlp, hex], fun x hx => hx⟩
        · exact ⟨delMap s.cacheMetadata k, delMap s.cacheMetadata k,
            removeFile s.files (pathJoin cacheDir lp), s.ttlChecks + 1,
            by simp [getCachedLogo, h, hexp, hlp, hex, removeCachedLogo],
            fun x hx => List.mem_of_mem_filter hx⟩
      | none =>
        exact ⟨s.cacheMetadata, s.persisted, s.files, s.ttlChecks + 1,
          by simp [getCachedLogo, h, hexp, hlp], fun x hx => hx⟩

theorem cacheLogo_remoteSearches (env : Env) (s : CacheState) (k u src : String) :
    ((cacheLogo env s k u src).2).remoteSearches = s.remoteSearches := by
  obtain ⟨n, fs, lp, h⟩ := cacheLogo_state env s k u src
  rw [h]

theorem searchWikimediaLogo_remoteSearches (env : Env) (s : CacheState) (c : String) :
    ((searchWikimediaLogo env s c).2).remoteSearches = s.remoteSearches + 1 := by
  obtain ⟨n, h⟩ := searchWikimediaLogo_state env s c
  rw [h]

theorem getCachedLogo_remoteSearches (env : Env) (s : CacheState) (k : String) :
    ((getCachedLogo env s k).2).remoteSearches = s.remoteSearches := by
  obtain ⟨md, pd, fs, tc, h, _⟩ := getCachedLogo_state env s k
  rw [h]

/-- Every branch of `getChannelLogo` records its result in the in-memory cache
under the lower-cased channel name. -/
theorem getChannelLogo_memo (env : Env) (s : CacheState) (name : String)
    (fb : Option String) :
    lookupMap ((getChannelLogo env s name fb).2).logoCache (lowerStr name) =
      some ((getChannelLogo env s name fb).1) := by
  cases h1 : lookupMap s.logoCache (lowerStr name) with
  | some v => simp [getChannelLogo, h1]
  | none =>
    cases h2 : (getCachedLogo env s (lowerStr name)).1 with
    | some c => simp [getChannelLogo, h1, h2, lookupMap_setMap_self]
    | none => simp [getChannelLogo, h1, h2, lookupMap_setMap_self]

/-- A memory-cache hit returns the stored value and leaves the state untouched. -/
theorem getChannelLogo_memory_hit (env : Env) (s : CacheState) (name : String)
    (fb : Option String) (r : String)
    (h : lookupMap s.logoCache (lowerStr name) = some r) :
    getChannelLogo env s name fb = (r, s) := by
  simp [getChannelLogo, h]

/-- C5: resolving the same channel twice with no intervening cache clear
performs the remote search at most once — the first call invokes
`searchWikimediaLogo` at most once, and the second call is answered from the
in-memory cache: it returns the same reference and leaves the state, including
the network-call, remote-search and persistent-store TTL-validation counters,
completely untouched. -/
theorem c5_second_resolve_memory_hit :
    ∀ (env : Env) (s : CacheState) (name : String) (fb : Option String),
      getChannelLogo env ((getChannelLogo env s name fb).2) name fb =
        getChannelLogo env s name fb ∧
      ((getChannelLogo env s name fb).2).remoteSearches ≤ s.remoteSearches + 1 := by
  intro env s name fb
  constructor
  · exact getChannelLogo_memory_hit env _ name fb _ (getChannelLogo_memo env s name fb)
  · cases h1 : lookupMap s.logoCache (lowerStr name) with
    | some v =>
      simp only [getChannelLogo, h1]
      omega
    | none =>
      cases h2 : (getCachedLogo env s (lowerStr name)).1 with
      | some c =>
        simp only [getChannelLogo, h1, h2]
        rw [getCachedLogo_remoteSearches]
        omega
      | none =>
        simp only [getChannelLogo, h1, h2, cacheLogo_remoteSearches,
          searchWikimediaLogo_remoteSearches, getCachedLogo_remoteSearches]
        omega

/-- C9: the Logo Resolver is total and never propagates a failure: every call
returns some image reference (and memoizes it under the lower-cased name), a
remote search whose every request fails is absorbed into a `null` result, and
with the network fully down the caller-supplied fallback is still returned. -/
theorem c9_resolver_never_throws :
    (∀ (env : Env) (s : CacheState) (name : String) (fb : Option String),
        lookupMap ((getChannelLogo env s name fb).2).logoCache (lowerStr name) =
          some ((getChannelLogo env s name fb).1))
    ∧ (∀ (env : Env) (s : CacheState) (name : String),
        (∀ t, ∃ msg, env.httpSearch t = Except.error msg) →
        (searchWikimediaLogo env s name).1 = none)
    ∧ (getChannelLogo envDown emptyState "ESPN" (some "http://cdn.test/espn.png")).1 =
        "http://cdn.test/espn.png" := by
  refine ⟨getChannelLogo_memo, ?_, by decide⟩
  intro env s name hfail
  suffices hl : ∀ (terms : List String) (st : CacheState),
      (searchLoop env st terms).1 = none by
    simp [searchWikimediaLogo, hl]
  intro terms
  induction terms with
  | nil => intro st; rfl
  | cons t rest ih =>
    intro st
    obtain ⟨msg, hmsg⟩ := hfail t
    have hq : (queryWikimediaForTerm env st t).1 = none := by
      simp [queryWikimediaForTerm, hmsg]
    simp [searchLoop, hq, ih]

/-- Witness for C9: the absorbed-failure clause at the all-failing network. -/
theorem c9_resolver_never_throws_witness :
    (searchWikimediaLogo envDown emptyState "ESPN").1 = none :=
  c9_resolver_never_throws.2.1 envDown emptyState "ESPN"
    (fun _ => ⟨"network down", rfl⟩)

theorem mem_setMap {α : Type} {m : List (String × α)} {k k' : String} {v e : α}
    (h : (k', e) ∈ setMap m k v) : (k' = k ∧ e = v) ∨ (k', e) ∈ m := by
  rcases List.mem_cons.mp h with heq | hmem
  · left
    cases heq
    exact ⟨rfl, rfl⟩
  · right
    exact List.mem_of_mem_filter hmem

theorem cacheLogo_metadata_mem {env : Env} {s : CacheState} {k u src : String}
    {k' : String} {e : Entry}
    (h : (k', e) ∈ ((cacheLogo env s k u src).2).cacheMetadata) :
    (k' = k ∧ e.source = src) ∨ (k', e) ∈ s.cacheMetadata := by
  obtain ⟨n, fs, lp, hst⟩ := cacheLogo_state env s k u src
  rw [hst] at h
  rcases mem_setMap h with ⟨hk, he⟩ | hmem
  · exact Or.inl ⟨hk, by rw [he]⟩
  · exact Or.inr hmem

/-- C2 counterexample: when the caller-supplied fallback wins the priority
chain the entry written to the metadata store is tagged `"debridio"`, which is
not `"fallbackProvided"` and lies outside the claimed tag set
`{"wikimedia", "fallbackProvided", "placeholder"}`. -/
theorem c2_counterexample_fallback_tag :
    lookupMap ((getChannelLogo envEmptySearch emptyState "ESPN"
        (some "http://cdn.test/espn.png")).2).cacheMetadata "espn" =
      some debridioEntry ∧
    debridioEntry.source = "debridio" ∧
    ¬ (debridioEntry.source = "wikimedia" ∨ debridioEntry.source = "fallbackProvided" ∨
        debridioEntry.source = "placeholder") := by
  exact ⟨by decide, by decide, by decide⟩

/-- C2 amended: every cache entry written by the resolver carries a source tag
drawn from `{"wikimedia", "debridio", "placeholder"}` (entries not written in
the call were already present); when the caller-supplied fallback wins the
chain the entry is tagged `"debridio"`. -/
theorem c2_source_tags :
    (∀ (env : Env) (s : CacheState) (name : String) (fb : Option String)
        (k : String) (e : Entry),
        lookupMap ((getChannelLogo env s name fb).2).cacheMetadata k = some e →
        (k, e) ∈ s.cacheMetadata ∨
          e.source = "wikimedia" ∨ e.source = "debridio" ∨ e.source = "placeholder")
    ∧ lookupMap ((getChannelLogo envEmptySearch emptyState "ESPN"
          (some "http://cdn.test/espn.png")).2).cacheMetadata "espn" =
        some debridioEntry := by
  refine ⟨?_, by decide⟩
  intro env s name fb k e h
  have hmem := lookupMap_mem h
  obtain ⟨md, pd, fs, tc, hgc, hsub⟩ := getCachedLogo_state env s (lowerStr name)
  cases h1 : lookupMap s.logoCache (lowerStr name) with
  | some v =>
    rw [getChannelLogo_memory_hit env s name fb v h1] at hmem
    exact Or.inl hmem
  | none =>
    cases h2 : (getCachedLogo env s (lowerStr name)).1 with
    | some c =>
      simp only [getChannelLogo, h1, h2] at hmem
      rw [hgc] at hmem
      exact Or.inl (hsub _ hmem)
    | none =>
      cases hw : (searchWikimediaLogo env (getCachedLogo env s (lowerStr name)).2 name).1 with
      | some w =>
        simp only [getChannelLogo, h1, h2, hw] at hmem
        rcases cacheLogo_metadata_mem hmem with ⟨_, hsrc⟩ | hmem2
        · exact Or.inr (Or.inl hsrc)
        · obtain ⟨n, hws⟩ :=
            searchWikimediaLogo_state env (getCachedLogo env s (lowerStr name)).2 name
          rw [hws] at hmem2
          rw [hgc] at hmem2
          exact Or.inl (hsub _ hmem2)
      | none =>
        obtain ⟨n, hws⟩ :=
          searchWikimediaLogo_state env (getCachedLogo env s (lowerStr name)).2 name
        cases fb with
        | none =>
          simp only [getChannelLogo, h1, h2, hw] at hmem
          rcases cacheLogo_metadata_mem hmem with ⟨_, hsrc⟩ | hmem2
          · exact Or.inr (Or.inr (Or.inr hsrc))
          · rw [hws] at hmem2
            rw [hgc] at hmem2
            exact Or.inl (hsub _ hmem2)
        | some d =>
          by_cases hd : d.isEmpty = true
          · simp only [getChannelLogo, h1, h2, hw, hd, if_true] at hmem
            rcases cacheLogo_metadata_mem hmem with ⟨_, hsrc⟩ | hmem2
            · exact Or.inr (Or.inr (Or.inr hsrc))
            · rw [hws] at hmem2
              rw [hgc] at hmem2
              exact Or.inl (hsub _ hmem2)
          · simp only [Bool.not_eq_true] at hd
            simp only [getChannelLogo, h1, h2, hw, hd, Bool.false_eq_true,
              if_false] at hmem
            rcases cacheLogo_metadata_mem hmem with ⟨_, hsrc⟩ | hmem2
            · exact Or.inr (Or.inr (Or.inl hsrc))
            · rw [hws] at hmem2
              rw [hgc] at hmem2
              exact Or.inl (hsub _ hmem2)

/-- Witness for C2 (amended): the general tag property applied at the concrete
fallback-winning run. -/
theorem c2_source_tags_witness :
    ("espn", debridioEntry) ∈ emptyState.cacheMetadata ∨
      debridioEntry.source = "wikimedia" ∨ debridioEntry.source = "debridio" ∨
      debridioEntry.source = "placeholder" :=
  c2_source_tags.1 envEmptySearch emptyState "ESPN" (some "http://cdn.test/espn.png")
    "espn" debridioEntry (by decide)

/-- C7: when the logo-enhancement configuration boolean is disabled, phase 2
never runs — the background task is not scheduled, no resolver call and no
cache write occurs, and the content keeps its phase-1 poster references with no
playlist rewrite. -/
theorem c7_disabled_skips_phase2 :
    ∀ (cfg : Config) (env : Env) (s : CacheState) (content : List Item),
      cfg.enableWikimedia = false →
      enhanceLogosInBackground cfg env s content =
        { scheduled := false, content := content, state := s, resolverCalls := 0,
          logosEnhanced := 0, rewritten := false } := by
  intro cfg env s content h
  simp [enhanceLogosInBackground, h]

/-- Witness for C7 at a concrete disabled configuration. -/
theorem c7_disabled_skips_phase2_witness :
    enhanceLogosInBackground ⟨false⟩ envDown emptyState
        [{ title := "ESPN", poster := none }] =
      { scheduled := false, content := [{ title := "ESPN", poster := none }],
        state := emptyState, resolverCalls := 0, logosEnhanced := 0,
        rewritten := false } :=
  c7_disabled_skips_phase2 ⟨false⟩ envDown emptyState
    [{ title := "ESPN", poster := none }] rfl

/-- C1 counterexample: an invocation that finds the mutual-exclusion flag clear
but whose fetch fails does not invoke the background enhancement at all, even
with the enhancement feature enabled — the flag is cleared and the error
re-raised instead, contradicting "scheduled regardless of success". -/
theorem c1_counterexample_fetch_failure :
    (generatePlaylist ⟨true⟩ ⟨Except.error "fetch failed", fun _ => Except.ok ()⟩
        envDown emptyState false).skipped = false ∧
    (generatePlaylist ⟨true⟩ ⟨Except.error "fetch failed", fun _ => Except.ok ()⟩
        envDown emptyState false).enhance = none ∧
    (generatePlaylist ⟨true⟩ ⟨Except.error "fetch failed", fun _ => Except.ok ()⟩
        envDown emptyState false).errorRaised = some "fetch failed" ∧
    (generatePlaylist ⟨true⟩ ⟨Except.error "fetch failed", fun _ => Except.ok ()⟩
        envDown emptyState false).isUpdating = false := by
  exact ⟨rfl, rfl, rfl, rfl⟩

/-- C1 amended: for a flag-clear invocation the mutual-exclusion flag is always
cleared afterwards, and the decoupled background task is invoked exactly when
the fetch/write phase succeeded; on fetch or write failure the error is
re-raised with no background invocation (and a flag-set invocation is a
skipped no-op). -/
theorem c1_background_only_after_success :
    ∀ (cfg : Config) (denv : DriverEnv) (env : Env) (s : CacheState),
      (generatePlaylist cfg denv env s false).isUpdating = false ∧
      (generatePlaylist cfg denv env s false).skipped = false ∧
      ((generatePlaylist cfg denv env s false).enhance.isSome ↔
        (generatePlaylist cfg denv env s false).errorRaised = none) ∧
      (generatePlaylist cfg denv env s true).skipped = true := by
  intro cfg denv env s
  cases hf : denv.fetchContent with
  | error e => simp [generatePlaylist, hf]
  | ok content =>
    cases hw : denv.writePlaylist content with
    | error e => simp [generatePlaylist, hf, hw]
    | ok u => simp [generatePlaylist, hf, hw]

/-- Witness for C5 at a concrete channel and environment. -/
theorem c5_second_resolve_memory_hit_witness :
    getChannelLogo envDown ((getChannelLogo envDown emptyState "ESPN" none).2) "ESPN" none =
      getChannelLogo envDown emptyState "ESPN" none ∧
    ((getChannelLogo envDown emptyState "ESPN" none).2).remoteSearches ≤
      emptyState.remoteSearches + 1 :=
  c5_second_resolve_memory_hit envDown emptyState "ESPN" none

/-- Witness for C1 (amended) at a concrete succeeding driver environment. -/
theorem c1_background_only_after_success_witness :
    (generatePlaylist ⟨true⟩ ⟨Except.ok [], fun _ => Except.ok ()⟩
        envDown emptyState false).isUpdating = false ∧
    (generatePlaylist ⟨true⟩ ⟨Except.ok [], fun _ => Except.ok ()⟩
        envDown emptyState false).skipped = false ∧
    ((generatePlaylist ⟨true⟩ ⟨Except.ok [], fun _ => Except.ok ()⟩
        envDown emptyState false).enhance.isSome ↔
      (generatePlaylist ⟨true⟩ ⟨Except.ok [], fun _ => Except.ok ()⟩
        envDown emptyState false).errorRaised = none) ∧
    (generatePlaylist ⟨true⟩ ⟨Except.ok [], fun _ => Except.ok ()⟩
        envDown emptyState true).skipped = true :=
  c1_background_only_after_success ⟨true⟩ ⟨Except.ok [], fun _ => Except.ok ()⟩
    envDown emptyState

end DebridioResolver
